import Mathlib

/-!
Shallow embedding of the hybrid classifier composition layer of
src/classifiers/hybrid/models.py (classes WeightedHybridClassifier,
LearnedWeightHybridClassifier, LatentSpacePooledHybridClassifier).

Torch Sequential stacks are embedded as lists of symbolic layers; the
dynamically built MLP stacks follow the Python loop
for i in range(len(H)) exactly, including its conditional output width.
Constructor-time validation is embedded with Except; Python list indexing
that can fail (H[0] on an empty list) is embedded fallibly as well.
Per-event tensor arithmetic is embedded over the rationals; the softmax
output layer is embedded over the reals. The external subnetworks
(ParticleMapping, ParticleFlowNetwork, LorenzInvariantNetwork live outside
src/) appear either as symbolic layers or as abstract per-event functions.
-/

namespace HybridModels

/-- Symbolic layer of a torch.nn.Sequential stack, recording the
constructor arguments that determine its shape. -/
inductive Layer where
| particleMapping (inFeatures particleCount latentDim : Nat) (hidden : List Nat)
| linear (inDim outDim : Nat)
| batchNorm1d (dim : Nat)
| relu
| softmax (dim : Nat)
deriving DecidableEq

/-- Body of the Python loop for i in range(len(H)) in models.py
(lines 95-104, 164-173, 182-190): appends Linear(H[i], w), BatchNorm1d(w),
ReLU where w is H[i] when i == len(H) - 1 and H[i+1] otherwise. -/
def loopBody (H : List Nat) (i : Nat) : List Layer :=
  let w := if i = H.length - 1 then H.getD i 0 else H.getD (i + 1) 0
  [Layer.linear (H.getD i 0) w, Layer.batchNorm1d w, Layer.relu]

/-- All layers appended by the Python loop, in order. -/
def loopLayers (H : List Nat) : List Layer :=
  (List.range H.length).flatMap (loopBody H)

/-- The dynamically built MLP stack of models.py (the pattern inlined at
lines 90-107, 160-176 and 178-192): Linear(inputDim, H[0]), BatchNorm1d,
ReLU, the loop layers, Linear(H[-1], outputDim), and Softmax(dim=1) when
the caller ends the stack with one. Accessing H[0] on an empty H is a
Python IndexError, embedded as an error. -/
def buildStackE (inputDim : Nat) (H : List Nat) (outputDim : Nat) (softmaxOut : Bool) :
    Except String (List Layer) :=
  match H.head? with
  | none => Except.error "IndexError: list index out of range"
  | some h0 =>
    Except.ok ([Layer.linear inputDim h0, Layer.batchNorm1d h0, Layer.relu]
      ++ loopLayers H
      ++ [Layer.linear (H.getLastD 0) outputDim]
      ++ (if softmaxOut then [Layer.softmax 1] else []))

/-- True exactly on Linear layers. -/
def isLinear : Layer → Bool
| Layer.linear _ _ => true
| _ => false

/-- Number of Linear layers in a stack. -/
def countLinear (s : List Layer) : Nat := s.countP isLinear

/-- Modelled from the spec: the interior blocks
[Linear(h_i, h_(i+1)) -> Normalize -> Activation] for i = 0 .. n-2 of the
Dynamic MLP Builder contract (spec section 4.1). -/
def specInterior : List Nat → List Layer
| h :: h2 :: t => [Layer.linear h h2, Layer.batchNorm1d h2, Layer.relu] ++ specInterior (h2 :: t)
| _ => []

/-- Modelled from the spec: the full Dynamic MLP Builder contract of spec
section 4.1: Linear(input_dim, h_0) -> Normalize(h_0) -> Activation ->
interior blocks -> Linear(h_(n-1), output_dim) -> optional output softmax. -/
def specStack (inputDim : Nat) (H : List Nat) (outputDim : Nat) (softmaxOut : Bool) : List Layer :=
  [Layer.linear inputDim (H.headD 0), Layer.batchNorm1d (H.headD 0), Layer.relu]
    ++ specInterior H
    ++ [Layer.linear (H.getLastD 0) outputDim]
    ++ (if softmaxOut then [Layer.softmax 1] else [])

/-- The loop body with the conditional resolved to the interior case
(used for indices i < len(H) - 1). -/
def pairBody (H : List Nat) (i : Nat) : List Layer :=
  [Layer.linear (H.getD i 0) (H.getD (i + 1) 0), Layer.batchNorm1d (H.getD (i + 1) 0),
   Layer.relu]

/-- The interior prefix of the loop output: indices 0 .. len(H) - 2. -/
def pairsPart (H : List Nat) : List Layer :=
  (List.range (H.length - 1)).flatMap (pairBody H)

/-- WeightedHybridClassifier state (models.py lines 8-43): the two
subnetworks are external modules producing one scalar per event, embedded
as abstract functions. -/
structure WeightedHybridClassifier (α : Type) where
  general_p_map : α → ℚ
  invariant_p_map : α → ℚ
  invariant_network_weight : ℚ
  general_network_weight : ℚ

/-- WeightedHybridClassifier constructor (models.py lines 29-43): raises
ValueError when invariant_network_weight > 1 or < 0, otherwise stores the
weight and its complement 1 - weight. -/
def WeightedHybridClassifier.init {α : Type} (general invariant : α → ℚ)
    (invariant_network_weight : ℚ) : Except String (WeightedHybridClassifier α) :=
  if invariant_network_weight > 1 ∨ invariant_network_weight < 0 then
    Except.error "ValueError: Classifier weights must be between 0 and 1."
  else
    Except.ok ⟨general, invariant, invariant_network_weight, 1 - invariant_network_weight⟩

/-- WeightedHybridClassifier.forward (models.py lines 45-52). -/
def WeightedHybridClassifier.forward {α : Type} (c : WeightedHybridClassifier α) (x : α) : ℚ :=
  c.general_p_map x * c.general_network_weight + c.invariant_p_map x * c.invariant_network_weight

/-- Gate stack construction of LearnedWeightHybridClassifier (models.py
lines 87-109): a ValueError when the hidden list is empty, else
ParticleMapping followed by the dynamically built stack from
latent_space_dim down to width 2 with Softmax(dim=1). -/
def learnedWeightGateStack (latentSpaceDim : Nat)
    (pfnMappingHidden weightNetworkHidden : List Nat) : Except String (List Layer) :=
  if weightNetworkHidden.length = 0 then
    Except.error "ValueError: Length of weight_network_hidden_layer_dimensions cannot be zero."
  else
    Except.map (fun s => Layer.particleMapping 4 8 latentSpaceDim pfnMappingHidden :: s)
      (buildStackE latentSpaceDim weightNetworkHidden 2 true)

/-- LatentSpacePooledHybridClassifier state relevant to its stacks
(models.py lines 194-197). -/
structure LatentSpacePooledHybridClassifier where
  weight_network : List Layer
  general_classifier_preference : Option ℚ
  stack : List Layer

/-- LatentSpacePooledHybridClassifier constructor (models.py lines
148-197): ValueError when weight_network_hidden_layer_dimensions is empty;
then the weight_network stack (input width 1, output width 2, softmax) and
the classifier stack (input latent_space_dim, output width 1, no output
activation) are built; classifier_hidden_layer_dimensions is indexed
without a prior emptiness check, so an empty list is an IndexError. The
general_classifier_preference argument is stored without any validation. -/
def LatentSpacePooledHybridClassifier.init (latentSpaceDim : Nat)
    (pfnMappingHidden lorenzInvariantHidden weightNetworkHidden classifierHidden : List Nat)
    (generalClassifierPreference : Option ℚ) :
    Except String LatentSpacePooledHybridClassifier :=
  if weightNetworkHidden.length = 0 then
    Except.error "ValueError: Length of weight_network_hidden_layer_dimensions cannot be zero."
  else do
    let wn ← buildStackE 1 weightNetworkHidden 2 true
    let st ← buildStackE latentSpaceDim classifierHidden 1 false
    Except.ok ⟨wn, generalClassifierPreference, st⟩

/-- The skew step of LatentSpacePooledHybridClassifier.forward (models.py
lines 207-213), per event: multiply both pool weights by the 2 x 1 tensor
[[1 - p], [1 - p]] and add [[p], [0.0]]; when the preference is None the
pool weights pass through unchanged. -/
def applySkew (generalClassifierPreference : Option ℚ) (poolWeights : ℚ × ℚ) : ℚ × ℚ :=
  match generalClassifierPreference with
  | none => poolWeights
  | some p => (poolWeights.1 * (1 - p) + p, poolWeights.2 * (1 - p) + 0)

/-- torch.stack of the two latent vectors followed by the broadcast
multiply with the per-event pool weights (models.py lines 202 and 215):
row 0 is the general latent scaled by the first weight, row 1 the
invariant latent scaled by the second. -/
def mulPoolWeights (generalResult invariantResult : List ℚ) (w : ℚ × ℚ) :
    List ℚ × List ℚ :=
  (generalResult.map (fun u => u * w.1), invariantResult.map (fun v => v * w.2))

/-- nn.AvgPool2d((2, 1)) on an event's 2 x latent block (models.py line
197, applied at line 231): the mean of the two rows, per latent dimension. -/
def avgPool2d21 (rows : List ℚ × List ℚ) : List ℚ :=
  List.zipWith (fun a b => (a + b) / 2) rows.1 rows.2

/-- sum_pool_2d (models.py lines 221-235) on an event's 2 x latent block:
average pooling over the size-2 axis followed by multiplication by 2 (the
squeeze of the collapsed axis is represented by returning the flat list). -/
def sum_pool_2d (rows : List ℚ × List ℚ) : List ℚ :=
  (avgPool2d21 rows).map (fun a => a * 2)

/-- torch squeeze on a shape: removes every dimension of size 1
(models.py line 233). -/
def squeezeShape (s : List Nat) : List Nat := s.filter (fun d => d ≠ 1)

/-- Shape of nn.AvgPool2d((2, 1)) applied to a [batch, 2, latent] tensor. -/
def avgPool2d21Shape (b d : Nat) : List Nat := [b, 1, d]

/-- Shape of the sum_pool_2d result on a [batch, 2, latent] input:
multiplication by 2 keeps the pooled shape, then squeeze removes every
size-1 dimension. -/
def sum_pool_2d_shape (b d : Nat) : List Nat := squeezeShape (avgPool2d21Shape b d)

/-- Indexing a rank-3 tensor with [..., i] (last axis), as a nested list. -/
def lastIndex3 (x : List (List (List ℚ))) (i : Nat) : List (List ℚ) :=
  x.map (fun ev => ev.map (fun part => part.getD i 0))

/-- Indexing a rank-2 tensor with [..., i] (last axis), as a nested list. -/
def lastIndex2 (y : List (List ℚ)) (i : Nat) : List ℚ :=
  y.map (fun ev => ev.getD i 0)

/-- The transverse momentum fed to weight_network (models.py line 204):
sqrt(add(pow(x[..., 0][..., 0], 2), pow(x[..., 1][..., 0], 2))), one value
per batch element; the square root is kept abstract since the claim is
about which tensor entries feed it. -/
def pT_fed (sqrtFn : ℚ → ℚ) (x : List (List (List ℚ))) : List ℚ :=
  List.zipWith (fun a b => sqrtFn (a ^ 2 + b ^ 2))
    (lastIndex2 (lastIndex3 x 0) 0) (lastIndex2 (lastIndex3 x 1) 0)

/-- nn.Softmax(dim=1) on a single event's row of n gate logits. -/
noncomputable def softmaxFn {n : Nat} (z : Fin n → ℝ) : Fin n → ℝ :=
  fun i => Real.exp (z i) / ∑ j, Real.exp (z j)

/-- A gate stack ending in nn.Softmax(dim=1) (models.py lines 106-107 and
175-176): everything before the softmax is abstracted as a function to a
row of two logits. -/
noncomputable def gateOutput {α : Type} (preSoftmax : α → Fin 2 → ℝ) (x : α) : Fin 2 → ℝ :=
  softmaxFn (preSoftmax x)

/-- Shifting the loop index by one steps to the tail of the width list. -/
theorem pairBody_cons (x : Nat) (H : List Nat) (i : Nat) :
    pairBody (x :: H) (i + 1) = pairBody H i := by
  simp [pairBody, List.getD_cons_succ]

/-- The interior prefix of the loop output matches the spec's interior
blocks. -/
theorem pairsPart_eq_specInterior (H : List Nat) : pairsPart H = specInterior H := by
  induction H with
  | nil => rfl
  | cons x t ih =>
    cases t with
    | nil => rfl
    | cons y t2 =>
      have h1 : (x :: y :: t2).length - 1 = t2.length + 1 := by simp
      have h2 : ∀ i, pairBody (x :: y :: t2) (Nat.succ i) = pairBody (y :: t2) i := by
        intro i
        exact pairBody_cons x (y :: t2) i
      have h3 : pairsPart (y :: t2) = (List.range t2.length).flatMap (pairBody (y :: t2)) := by
        simp [pairsPart]
      simp only [pairsPart, h1, List.range_succ_eq_map, List.flatMap_cons, List.flatMap_map, h2]
      rw [← h3, ih]
      simp [specInterior, pairBody]

/-- The index len(H) - 1 retrieves the last element. -/
theorem getD_length_sub_one (H : List Nat) (h : H ≠ []) :
    H.getD (H.length - 1) 0 = H.getLastD 0 := by
  have hlt : H.length - 1 < H.length := by
    cases H with
    | nil => exact absurd rfl h
    | cons a t => simp
  rw [List.getD_eq_getElem H 0 hlt, List.getLastD_eq_getLast?, List.getLast?_eq_getElem?]
  simp [List.getElem?_eq_getElem hlt]

/-- The Python loop emits the spec's interior blocks followed by one extra
block Linear(last, last) -> BatchNorm1d(last) -> ReLU from its final
iteration i = len(H) - 1. -/
theorem loopLayers_eq (H : List Nat) (h : H ≠ []) :
    loopLayers H = specInterior H
      ++ [Layer.linear (H.getLastD 0) (H.getLastD 0),
          Layer.batchNorm1d (H.getLastD 0), Layer.relu] := by
  obtain ⟨n, hn⟩ : ∃ n, H.length = n + 1 := by
    cases H with
    | nil => exact absurd rfl h
    | cons a t => exact ⟨t.length, by simp⟩
  have hn1 : H.length - 1 = n := by omega
  unfold loopLayers
  rw [hn, List.range_succ, List.flatMap_append]
  have hfst : (List.range n).flatMap (loopBody H) = specInterior H := by
    rw [← pairsPart_eq_specInterior]
    unfold pairsPart
    rw [hn1]
    apply List.flatMap_congr
    intro i hi
    have hilt : i < n := List.mem_range.mp hi
    have hne : i ≠ H.length - 1 := by omega
    simp [loopBody, pairBody, if_neg hne]
  have hlast : [n].flatMap (loopBody H) = [Layer.linear (H.getLastD 0) (H.getLastD 0),
      Layer.batchNorm1d (H.getLastD 0), Layer.relu] := by
    have heq : H.getD n 0 = H.getLastD 0 := by
      rw [← hn1]
      exact getD_length_sub_one H h
    have hb : loopBody H n = [Layer.linear (H.getD n 0) (H.getD n 0),
        Layer.batchNorm1d (H.getD n 0), Layer.relu] := by
      simp only [loopBody]
      rw [if_pos hn1.symm]
    simp only [List.flatMap_cons, List.flatMap_nil, List.append_nil, hb, heq]
  rw [hfst, hlast]

/-- Appending one width extends the spec interior with one block ending at
the old last width. -/
theorem specInterior_append (H : List Nat) (h : H ≠ []) (l : Nat) :
    specInterior (H ++ [l]) =
      specInterior H ++ [Layer.linear (H.getLastD 0) l, Layer.batchNorm1d l, Layer.relu] := by
  induction H with
  | nil => exact absurd rfl h
  | cons x t ih =>
    cases t with
    | nil => rfl
    | cons y t2 =>
      have ih2 := ih (by simp)
      have hL : (x :: y :: t2).getLastD 0 = (y :: t2).getLastD 0 := by
        simp [List.getLastD_eq_getLast?]
      have e1 : specInterior ((x :: y :: t2) ++ [l])
          = [Layer.linear x y, Layer.batchNorm1d y, Layer.relu]
            ++ specInterior ((y :: t2) ++ [l]) := rfl
      have e2 : specInterior (x :: y :: t2)
          = [Layer.linear x y, Layer.batchNorm1d y, Layer.relu]
            ++ specInterior (y :: t2) := rfl
      rw [e1, ih2, e2, hL, List.append_assoc]

/-- The spec interior contains one Linear layer per consecutive pair of
widths. -/
theorem countLinear_specInterior (H : List Nat) :
    countLinear (specInterior H) = H.length - 1 := by
  induction H with
  | nil => rfl
  | cons x t ih =>
    cases t with
    | nil => rfl
    | cons y t2 =>
      have e : specInterior (x :: y :: t2)
          = [Layer.linear x y, Layer.batchNorm1d y, Layer.relu]
            ++ specInterior (y :: t2) := rfl
      have hc : List.countP isLinear [Layer.linear x y, Layer.batchNorm1d y, Layer.relu]
          = 1 := rfl
      simp only [countLinear] at ih ⊢
      rw [e, List.countP_append, ih, hc]
      simp only [List.length_cons]
      omega

/-- The spec's full stack on a non-empty width list contains length + 1
Linear layers. -/
theorem countLinear_specStack (inputDim outputDim : Nat) (sm : Bool) (H2 : List Nat)
    (h : H2 ≠ []) :
    countLinear (specStack inputDim H2 outputDim sm) = H2.length + 1 := by
  have h1 : 1 ≤ H2.length := by
    cases H2 with
    | nil => exact absurd rfl h
    | cons a t => simp
  have c1 : List.countP isLinear [Layer.linear inputDim (H2.headD 0),
      Layer.batchNorm1d (H2.headD 0), Layer.relu] = 1 := rfl
  have c2 : List.countP isLinear [Layer.linear (H2.getLastD 0) outputDim] = 1 := rfl
  have c3 : List.countP isLinear (if sm then [Layer.softmax 1] else []) = 0 := by
    cases sm <;> rfl
  have c4 := countLinear_specInterior H2
  simp only [countLinear] at c4 ⊢
  simp only [specStack, List.countP_append]
  rw [c1, c2, c3, c4]
  omega

/-- C1, amended: on every non-empty width list H the dynamically built
stack equals the spec's formula applied to H with its last width
duplicated, not to H itself — the Python loop also runs at i = len(H) - 1
and emits an extra Linear(h_last, h_last) -> Normalize -> Activation
block — so the stack contains len(H) + 2 Linear layers, not len(H) + 1. -/
theorem C1_builder_amended (inputDim outputDim : Nat) (sm : Bool) (H : List Nat)
    (h : H ≠ []) :
    buildStackE inputDim H outputDim sm
      = Except.ok (specStack inputDim (H ++ [H.getLastD 0]) outputDim sm)
    ∧ (buildStackE inputDim H outputDim sm).toOption.map countLinear
      = some (H.length + 2) := by
  obtain ⟨h0, t, rfl⟩ : ∃ h0 t, H = h0 :: t := by
    cases H with
    | nil => exact absurd rfl h
    | cons a t => exact ⟨a, t, rfl⟩
  have hbuild : buildStackE inputDim (h0 :: t) outputDim sm
      = Except.ok ([Layer.linear inputDim h0, Layer.batchNorm1d h0, Layer.relu]
        ++ loopLayers (h0 :: t)
        ++ [Layer.linear ((h0 :: t).getLastD 0) outputDim]
        ++ (if sm then [Layer.softmax 1] else [])) := rfl
  have hhead : ((h0 :: t) ++ [(h0 :: t).getLastD 0]).headD 0 = h0 := rfl
  have hlastapp : ((h0 :: t) ++ [(h0 :: t).getLastD 0]).getLastD 0 = (h0 :: t).getLastD 0 := by
    rw [List.getLastD_eq_getLast?, List.getLast?_concat]
    rfl
  have hspec : specStack inputDim ((h0 :: t) ++ [(h0 :: t).getLastD 0]) outputDim sm
      = [Layer.linear inputDim h0, Layer.batchNorm1d h0, Layer.relu]
        ++ (specInterior (h0 :: t)
            ++ [Layer.linear ((h0 :: t).getLastD 0) ((h0 :: t).getLastD 0),
                Layer.batchNorm1d ((h0 :: t).getLastD 0), Layer.relu])
        ++ [Layer.linear ((h0 :: t).getLastD 0) outputDim]
        ++ (if sm then [Layer.softmax 1] else []) := by
    simp only [specStack, hhead, hlastapp]
    rw [specInterior_append (h0 :: t) h ((h0 :: t).getLastD 0)]
  constructor
  · rw [hbuild, hspec, loopLayers_eq (h0 :: t) h]
  · have hne : (h0 :: t) ++ [(h0 :: t).getLastD 0] ≠ [] := by simp
    have hmap : (buildStackE inputDim (h0 :: t) outputDim sm).toOption.map countLinear
        = some (countLinear
            (specStack inputDim ((h0 :: t) ++ [(h0 :: t).getLastD 0]) outputDim sm)) := by
      rw [hbuild, loopLayers_eq (h0 :: t) h, ← hspec]
      rfl
    rw [hmap, countLinear_specStack inputDim outputDim sm _ hne]
    have hlen : ((h0 :: t) ++ [(h0 :: t).getLastD 0]).length + 1 = (h0 :: t).length + 2 := by
      simp
    rw [hlen]

/-- C1, counterexample: LatentSpacePooledHybridClassifier built with
classifier_hidden_layer_dimensions = [4] (n = 1) gets a classifier stack
with 3 Linear layers, not the n + 1 = 2 the claim states. -/
theorem C1_builder_counterexample :
    (LatentSpacePooledHybridClassifier.init 3 [] [] [4] [4] none).toOption.map
      (fun c => countLinear c.stack) = some 3
    ∧ ¬ (3 = ([4] : List Nat).length + 1) := by
  constructor
  · rfl
  · decide

/-- Witness for C1_builder_amended at inputDim 3, H = [4], outputDim 2,
softmax output. -/
theorem C1_builder_witness :
    ([4] : List Nat) ≠ []
    ∧ (buildStackE 3 [4] 2 true
        = Except.ok (specStack 3 ([4] ++ [([4] : List Nat).getLastD 0]) 2 true)
      ∧ (buildStackE 3 [4] 2 true).toOption.map countLinear
        = some (([4] : List Nat).length + 2)) :=
  ⟨by decide, C1_builder_amended 3 2 true [4] (by decide)⟩

/-- C2: with general_classifier_preference = p the skew step maps the pool
weights (wg, wi) to ((1 - p) * wg + p, (1 - p) * wi); with no preference
the pool weights are unchanged. -/
theorem C2_skew_formula (p wg wi : ℚ) :
    applySkew (some p) (wg, wi) = ((1 - p) * wg + p, (1 - p) * wi)
    ∧ applySkew none (wg, wi) = (wg, wi) := by
  constructor
  · simp only [applySkew, Prod.mk.injEq]
    constructor <;> ring
  · rfl

/-- C3: multiplying the stacked latent pair [u, v] by per-event weights
(a, b) and then applying sum_pool_2d (average over the size-2 axis, then
multiply by 2) gives exactly the weighted sum a * u + b * v in every
latent dimension, not the average. -/
theorem C3_sum_pool_weighted_sum (a b : ℚ) (u v : List ℚ) :
    sum_pool_2d (mulPoolWeights u v (a, b))
      = List.zipWith (fun x y => a * x + b * y) u v := by
  induction u generalizing v with
  | nil => cases v <;> rfl
  | cons x tu ih =>
    cases v with
    | nil => rfl
    | cons y tv =>
      have htail := ih tv
      simp only [sum_pool_2d, avgPool2d21, mulPoolWeights, List.map_cons,
        List.zipWith_cons_cons] at htail ⊢
      refine List.cons_eq_cons.mpr ⟨by ring, htail⟩

/-- Evaluating a mapped event list at particle index 0. -/
theorem map_getD_zero (f : List ℚ → ℚ) (hf : f [] = 0) (ev : List (List ℚ)) :
    (ev.map f).getD 0 0 = f (ev.getD 0 []) := by
  cases ev <;> simp [hf]

/-- C4: for every batch tensor x of shape [batch, 2, 4], the transverse
momentum fed to weight_network is sqrt(x[b][0][0]^2 + x[b][0][1]^2) per
batch element: the [..., 0][..., 0] and [..., 1][..., 0] index chains
select particle slot 0's feature offsets 0 (px) and 1 (py) only. -/
theorem C4_pT_particle0 (sqrtFn : ℚ → ℚ) (x : List (List (List ℚ))) :
    pT_fed sqrtFn x
      = x.map (fun ev => sqrtFn ((ev.getD 0 []).getD 0 0 ^ 2 + (ev.getD 0 []).getD 1 0 ^ 2)) := by
  induction x with
  | nil => rfl
  | cons ev t ih =>
    simp only [pT_fed, lastIndex3, lastIndex2, List.map_cons, List.zipWith_cons_cons] at ih ⊢
    refine List.cons_eq_cons.mpr ⟨?_, ih⟩
    have e0 : (ev.map (fun part => part.getD 0 0)).getD 0 0 = (ev.getD 0 []).getD 0 0 :=
      map_getD_zero (fun part => part.getD 0 0) rfl ev
    have e1 : (ev.map (fun part => part.getD 1 0)).getD 0 0 = (ev.getD 0 []).getD 1 0 :=
      map_getD_zero (fun part => part.getD 1 0) rfl ev
    rw [e0, e1]

/-- C5: for invariant_network_weight w in [0, 1] the WeightedHybridClassifier
constructor succeeds, stores general_network_weight = 1 - w, and forward
returns exactly (1 - w) * general(x) + w * invariant(x); for w strictly
outside [0, 1] the constructor returns an error. -/
theorem C5_weighted_convex (α : Type) (general invariant : α → ℚ) (w : ℚ) :
    (0 ≤ w → w ≤ 1 →
      WeightedHybridClassifier.init general invariant w
          = Except.ok ⟨general, invariant, w, 1 - w⟩
      ∧ ∀ x, (WeightedHybridClassifier.mk general invariant w (1 - w)).forward x
          = (1 - w) * general x + w * invariant x)
    ∧ ((w < 0 ∨ 1 < w) → (WeightedHybridClassifier.init general invariant w).isOk = false) := by
  constructor
  · intro h0 h1
    constructor
    · have hcond : ¬ (w > 1 ∨ w < 0) := by
        push_neg
        exact ⟨h1, h0⟩
      simp [WeightedHybridClassifier.init, hcond]
    · intro x
      simp only [WeightedHybridClassifier.forward]
      ring
  · intro hout
    have hcond : w > 1 ∨ w < 0 := by
      rcases hout with hlt | hgt
      · exact Or.inr hlt
      · exact Or.inl hgt
    simp only [WeightedHybridClassifier.init, if_pos hcond]
    rfl

/-- Witness for C5_weighted_convex at w = 1/2 (in range, forward evaluated
at x = 3) and w = 2 (out of range). -/
theorem C5_weighted_witness :
    (WeightedHybridClassifier.init (fun q : ℚ => q) (fun q : ℚ => q + 1) (1/2)
        = Except.ok ⟨(fun q : ℚ => q), (fun q : ℚ => q + 1), 1/2, 1 - 1/2⟩)
    ∧ ((WeightedHybridClassifier.mk (fun q : ℚ => q) (fun q : ℚ => q + 1) (1/2)
          (1 - 1/2)).forward 3
        = (1 - 1/2) * 3 + 1/2 * (3 + 1))
    ∧ (WeightedHybridClassifier.init (fun q : ℚ => q) (fun q : ℚ => q + 1) 2).isOk = false :=
  ⟨((C5_weighted_convex ℚ (fun q => q) (fun q => q + 1) (1/2)).1
      (by norm_num) (by norm_num)).1,
   ((C5_weighted_convex ℚ (fun q => q) (fun q => q + 1) (1/2)).1
      (by norm_num) (by norm_num)).2 3,
   (C5_weighted_convex ℚ (fun q => q) (fun q => q + 1) 2).2 (by norm_num)⟩

/-- C6: the output of a gate stack ending in Softmax(dim=1) — the gate of
LearnedWeightHybridClassifier on x and the weight_network of
LatentSpacePooledHybridClassifier on pT — sums to 1 over the two-way axis
for every event and both components are non-negative, before any skew. -/
theorem C6_gate_softmax_convex (α : Type) (preSoftmax : α → Fin 2 → ℝ) (x : α) :
    (∑ i, gateOutput preSoftmax x i) = 1 ∧ ∀ i, 0 ≤ gateOutput preSoftmax x i := by
  have hpos : 0 < ∑ j, Real.exp (preSoftmax x j) :=
    Finset.sum_pos (fun j _ => Real.exp_pos _) Finset.univ_nonempty
  constructor
  · simp only [gateOutput, softmaxFn]
    rw [← Finset.sum_div, div_self (ne_of_gt hpos)]
  · intro i
    exact div_nonneg (Real.exp_pos _).le hpos.le

/-- C7: the listed constructions with an empty hidden-dimension list all
fail at construction time: the LearnedWeightHybridClassifier gate with an
empty weight-network list, and LatentSpacePooledHybridClassifier with an
empty weight-network list or an empty classifier list (the latter through
the unguarded index into classifier_hidden_layer_dimensions). -/
theorem C7_empty_hidden_errors (latent : Nat)
    (pfnHidden lorenzHidden wH cH : List Nat) (pref : Option ℚ) :
    (learnedWeightGateStack latent pfnHidden []).isOk = false
    ∧ (LatentSpacePooledHybridClassifier.init latent pfnHidden lorenzHidden [] cH pref).isOk
      = false
    ∧ (LatentSpacePooledHybridClassifier.init latent pfnHidden lorenzHidden wH [] pref).isOk
      = false := by
  refine ⟨rfl, rfl, ?_⟩
  cases wH with
  | nil => rfl
  | cons w0 t => rfl

/-- C8: the code stores general_classifier_preference without any range
validation, so construction with a preference outside [0, 1] succeeds —
contradicting the constructor docstring's declared ValueError and the
spec's construction-time validation requirement — while
WeightedHybridClassifier does reject an out-of-range weight. -/
theorem C8_preference_not_validated :
    (LatentSpacePooledHybridClassifier.init 3 [] [] [4] [4] (some 2)).isOk = true
    ∧ (LatentSpacePooledHybridClassifier.init 3 [] [] [4] [4]
        (some 2)).toOption.map (fun c => c.general_classifier_preference) = some (some 2)
    ∧ (WeightedHybridClassifier.init (fun q : ℚ => q) (fun q : ℚ => q) 2).isOk = false := by
  exact ⟨rfl, rfl, rfl⟩

/-- C9: for a preference p in [0, 1] and non-negative pool weights summing
to 1, the post-skew weights ((1 - p) * wg + p, (1 - p) * wi) again sum to
1 and stay non-negative: the skew preserves the convex combination. -/
theorem C9_skew_preserves_convexity (p wg wi : ℚ) (hp0 : 0 ≤ p) (hp1 : p ≤ 1)
    (hsum : wg + wi = 1) (hg : 0 ≤ wg) (hi : 0 ≤ wi) :
    (applySkew (some p) (wg, wi)).1 + (applySkew (some p) (wg, wi)).2 = 1
    ∧ 0 ≤ (applySkew (some p) (wg, wi)).1
    ∧ 0 ≤ (applySkew (some p) (wg, wi)).2 := by
  simp only [applySkew]
  refine ⟨by linear_combination (1 - p) * hsum, ?_, ?_⟩
  · nlinarith
  · nlinarith

/-- Witness for C9_skew_preserves_convexity at p = 1/2, weights
(1/4, 3/4). -/
theorem C9_skew_witness :
    ((0 : ℚ) ≤ 1/2 ∧ (1/2 : ℚ) ≤ 1 ∧ (1/4 : ℚ) + 3/4 = 1)
    ∧ ((applySkew (some (1/2)) (1/4, 3/4)).1 + (applySkew (some (1/2)) (1/4, 3/4)).2 = 1
      ∧ 0 ≤ (applySkew (some (1/2)) (1/4, 3/4)).1
      ∧ 0 ≤ (applySkew (some (1/2)) (1/4, 3/4)).2) :=
  ⟨⟨by norm_num, by norm_num, by norm_num⟩,
   C9_skew_preserves_convexity (1/2) (1/4) (3/4) (by norm_num) (by norm_num)
     (by norm_num) (by norm_num) (by norm_num)⟩

/-- C10: sum_pool_2d's final squeeze removes every size-1 dimension: a
[batch, 2, latent] input pools to shape [batch, latent] when both are at
least 2, but a batch of exactly 1 (or a latent dimension of exactly 1)
loses that axis as well. -/
theorem C10_squeeze_shape (b d : Nat) :
    (2 ≤ b → 2 ≤ d → sum_pool_2d_shape b d = [b, d])
    ∧ (2 ≤ d → sum_pool_2d_shape 1 d = [d])
    ∧ (2 ≤ b → sum_pool_2d_shape b 1 = [b]) := by
  refine ⟨fun hb hd => ?_, fun hd => ?_, fun hb => ?_⟩
  · have h1 : b ≠ 1 := by omega
    have h2 : d ≠ 1 := by omega
    simp [sum_pool_2d_shape, squeezeShape, avgPool2d21Shape, h1, h2]
  · have h2 : d ≠ 1 := by omega
    simp [sum_pool_2d_shape, squeezeShape, avgPool2d21Shape, h2]
  · have h1 : b ≠ 1 := by omega
    simp [sum_pool_2d_shape, squeezeShape, avgPool2d21Shape, h1]

/-- Witness for C10_squeeze_shape at batch 3, latent 5, and the two
degenerate axes. -/
theorem C10_squeeze_witness :
    (sum_pool_2d_shape 3 5 = [3, 5])
    ∧ (sum_pool_2d_shape 1 5 = [5])
    ∧ (sum_pool_2d_shape 3 1 = [3]) :=
  ⟨(C10_squeeze_shape 3 5).1 (by decide) (by decide),
   (C10_squeeze_shape 1 5).2.1 (by decide),
   (C10_squeeze_shape 3 1).2.2 (by decide)⟩

end HybridModels
